import Mathlib

/-!
Verification of the chat-history / session core of the CHATBOT repository.

The Python sources (`chat_history.py`, `storage_handler.py`,
`session_manager.py`) are shallowly embedded below:

* `ChatMessage.__init__`  →  `mkChatMessage` (validation returns `Except`);
* `ChatHistoryManager._cleanup_if_needed`  →  `cleanup_if_needed`;
* `ChatHistoryManager.add_message`  →  `add_message` / `addCallStep`;
* `ChatHistoryManager.get_conversation_context`  →  `get_conversation_context`;
* `StorageHandler.save_to_storage`  →  `save_to_storage`;
* `SessionManager.handle_new_document_upload`  →  `handle_new_document_upload`;
* `ChatHistoryManager.get_chat_history`'s shallow `.copy()` is modelled with an
  explicit object heap (`ChatState`) in the final section.

Python strings are modelled as `String` (a list of characters), Python dicts
with string keys as association lists with unique keys, and the session-state
mutation as explicit state passing.
-/

namespace ChatBot

/-- Python's `str.strip()`: remove whitespace characters from both ends. -/
def pyStrip (s : String) : String :=
  ⟨(((s.data.dropWhile Char.isWhitespace).reverse.dropWhile Char.isWhitespace).reverse)⟩

/-- Python's `str.split()` with no argument: split on runs of whitespace,
discarding empty fields.  `cur` accumulates the current field in reverse. -/
def pySplitAux : List Char → List Char → List String
  | [], [] => []
  | [], cur => [⟨cur.reverse⟩]
  | c :: rest, cur =>
    if c.isWhitespace then
      match cur with
      | [] => pySplitAux rest []
      | _ :: _ => ⟨cur.reverse⟩ :: pySplitAux rest []
    else pySplitAux rest (c :: cur)

def pySplit (s : String) : List String := pySplitAux s.data []

/-- Python dict update `m[k] = v` on an association list with unique keys:
replace the value of an existing key in place, otherwise append at the end. -/
def dictSet (m : List (String × String)) (k v : String) : List (String × String) :=
  match m with
  | [] => [(k, v)]
  | (k', v') :: rest => if k' = k then (k, v) :: rest else (k', v') :: dictSet rest k v

/-- Python dict lookup `m.get(k)`. -/
def dictGet (m : List (String × String)) (k : String) : Option String :=
  (m.find? (fun p => p.1 = k)).map Prod.snd

/-- The three validation failures `ChatMessage.__init__` can raise
(each a distinct `ValueError` in the source). -/
inductive ValidationError
  | InvalidRole
  | EmptyContent
  | ContentTooLong
  deriving Repr, DecidableEq

/-- The dictionary produced by `ChatMessage.to_dict()` and stored in
`st.session_state.chat_history`. -/
structure MsgDict where
  role : String
  content : String
  timestamp : String
  metadata : List (String × String)
  deriving Repr, DecidableEq

/-- `ChatMessage.__init__(role, content, metadata)` followed by `to_dict()`.
`timestamp` models `datetime.utcnow().isoformat() + 'Z'` and `freshId` models
`str(uuid.uuid4())`; both are nondeterministic inputs of the real code.
Checks run in source order: role membership, emptiness of the raw or stripped
content, then the RAW (unstripped) length against 10000; on success the stored
content is the stripped content and `metadata['message_id']` is set to the
fresh id. -/
def mkChatMessage (role content : String) (metadata : List (String × String))
    (timestamp freshId : String) : Except ValidationError MsgDict :=
  if ¬(role = "user" ∨ role = "assistant") then
    .error .InvalidRole
  else if content = "" ∨ pyStrip content = "" then
    .error .EmptyContent
  else if 10000 < content.length then
    .error .ContentTooLong
  else
    .ok { role := role
          content := pyStrip content
          timestamp := timestamp
          metadata := dictSet metadata "message_id" freshId }

/-- `ChatHistoryManager.MAX_MESSAGES`. -/
def MAX_MESSAGES : Nat := 50

/-- `ChatHistoryManager._cleanup_if_needed`: if the history exceeds
`MAX_MESSAGES`, drop `ceil(excess / 2) * 2` messages from the head. -/
def cleanup_if_needed (messages : List MsgDict) : List MsgDict :=
  if messages.length ≤ MAX_MESSAGES then messages
  else
    let excess := messages.length - MAX_MESSAGES
    let pairsToRemove := (excess + 1) / 2
    let messagesToRemove := pairsToRemove * 2
    messages.drop messagesToRemove

/-- `ChatHistoryManager.add_message`: validate and construct the message,
append its dict to the history, then clean up.  (The subsequent
`save_to_storage` call never modifies the in-memory history.)  A validation
failure propagates and the history is unchanged. -/
def add_message (history : List MsgDict) (role content : String)
    (metadata : List (String × String)) (timestamp freshId : String) :
    Except ValidationError (List MsgDict) :=
  (mkChatMessage role content metadata timestamp freshId).map
    fun m => cleanup_if_needed (history ++ [m])

/-- The caller-supplied arguments of one `add_message` call, together with the
timestamp and uuid the environment produces during that call. -/
structure AddCall where
  role : String
  content : String
  metadata : List (String × String)
  timestamp : String
  freshId : String

/-- The history after one `add_message` call: on validation failure the
exception propagates before any append, so the history is unchanged. -/
def addCallStep (h : List MsgDict) (c : AddCall) : List MsgDict :=
  match add_message h c.role c.content c.metadata c.timestamp c.freshId with
  | .ok h' => h'
  | .error _ => h

/-- The trace of history states after each call of a sequence of
`add_message` calls. -/
def runCalls (h : List MsgDict) : List AddCall → List (List MsgDict)
  | [] => []
  | c :: cs =>
    let h' := addCallStep h c
    h' :: runCalls h' cs

/-! ### Eviction and the length bound (claims C1–C3) -/

lemma cleanup_length_le (l : List MsgDict) :
    (cleanup_if_needed l).length ≤ 50 := by
  unfold cleanup_if_needed MAX_MESSAGES
  split
  · omega
  · simp only [List.length_drop]
    omega

lemma addCallStep_length_le (h : List MsgDict) (c : AddCall) :
    (addCallStep h c).length ≤ 50 ∨ addCallStep h c = h := by
  unfold addCallStep add_message
  cases mkChatMessage c.role c.content c.metadata c.timestamp c.freshId with
  | error e => right; rfl
  | ok m => left; exact cleanup_length_le _

/-- C1: starting from a history of length at most 50, after every
`add_message` call in a sequence the history length is at most 50. -/
theorem history_length_invariant (h : List MsgDict) (hle : h.length ≤ 50)
    (calls : List AddCall) :
    ∀ h' ∈ runCalls h calls, h'.length ≤ 50 := by
  induction calls generalizing h with
  | nil => intro h' hh'; simp [runCalls] at hh'
  | cons c cs ih =>
    intro h' hh'
    simp only [runCalls, List.mem_cons] at hh'
    have hstep : (addCallStep h c).length ≤ 50 := by
      rcases addCallStep_length_le h c with h1 | h1
      · exact h1
      · rw [h1]; exact hle
    rcases hh' with rfl | hh'
    · exact hstep
    · exact ih _ hstep _ hh'

theorem history_length_invariant_witness :
    ([] : List MsgDict).length ≤ 50 ∧
      ∀ h' ∈ runCalls [] [⟨"user", "hi", [], "t0", "id0"⟩], h'.length ≤ 50 :=
  ⟨by decide, history_length_invariant [] (by decide) _⟩

/-- C2 counterexample: the claim "eviction from length 51 leaves exactly 50"
is false.  Appending one message to a history of length 50 (so the eviction
sees length 51) leaves 49 messages, not 50. -/
theorem eviction_from_51_not_50 :
    (add_message (List.replicate 50 ⟨"user", "m", "t", []⟩)
        "user" "hi" [] "t1" "id1").map List.length = .ok 49 ∧ (49 : Nat) ≠ 50 := by
  constructor
  · rfl
  · decide

/-- C2 (amended): whenever a single `add_message` call makes the history
length exceed 50 (so the eviction sees length 51), the eviction leaves
exactly 49 messages: one full pair (2 messages) is removed even though the
excess is only 1. -/
theorem eviction_from_51_length (l : List MsgDict) (hl : l.length = 51) :
    (cleanup_if_needed l).length = 49 := by
  unfold cleanup_if_needed MAX_MESSAGES
  split
  · omega
  · simp only [List.length_drop]
    omega

theorem eviction_from_51_length_witness :
    (List.replicate 51 (⟨"user", "m", "t", []⟩ : MsgDict)).length = 51 ∧
      (cleanup_if_needed (List.replicate 51 ⟨"user", "m", "t", []⟩)).length = 49 :=
  ⟨by simp, eviction_from_51_length _ (by simp)⟩

/-- C3: for a history of length `n > 50` the eviction drops exactly
`ceil((n - 50) / 2) * 2` messages — an even count — from the head, leaving
the remaining messages as the untouched tail of the history (original
order); for `n ≤ 50` it removes nothing. -/
theorem eviction_removes_ceil_pairs (l : List MsgDict) :
    (l.length ≤ 50 → cleanup_if_needed l = l) ∧
    (50 < l.length →
      cleanup_if_needed l = l.drop (((l.length - 50) + 1) / 2 * 2) ∧
      (l.take (((l.length - 50) + 1) / 2 * 2)).length = ((l.length - 50) + 1) / 2 * 2 ∧
      (((l.length - 50) + 1) / 2 * 2) % 2 = 0 ∧
      l = l.take (((l.length - 50) + 1) / 2 * 2) ++ cleanup_if_needed l) := by
  constructor
  · intro h
    unfold cleanup_if_needed MAX_MESSAGES
    split
    · rfl
    · omega
  · intro h
    have hdrop : cleanup_if_needed l = l.drop (((l.length - 50) + 1) / 2 * 2) := by
      unfold cleanup_if_needed MAX_MESSAGES
      split
      · omega
      · rfl
    refine ⟨hdrop, ?_, ?_, ?_⟩
    · simp only [List.length_take]
      omega
    · omega
    · rw [hdrop, List.take_append_drop]

theorem eviction_removes_ceil_pairs_witness :
    cleanup_if_needed [] = [] ∧
      cleanup_if_needed (List.replicate 52 ⟨"user", "m", "t", []⟩) =
        (List.replicate 52 (⟨"user", "m", "t", []⟩ : MsgDict)).drop 2 := by
  constructor
  · exact (eviction_removes_ceil_pairs []).1 (by decide)
  · have h := (eviction_removes_ceil_pairs
      (List.replicate 52 (⟨"user", "m", "t", []⟩ : MsgDict))).2 (by simp)
    simpa using h.1

/-! ### Message construction: validation, metadata, trimming (claims C4, C9, C10) -/

/-- `true` iff the string has no leading and no trailing whitespace. -/
def noEdgeWhitespace (s : String) : Bool :=
  (match s.data.head? with | some c => !c.isWhitespace | none => true) &&
  (match s.data.getLast? with | some c => !c.isWhitespace | none => true)

lemma wsFalse_of_head?_dropWhile {l : List Char} {c : Char}
    (h : (l.dropWhile Char.isWhitespace).head? = some c) : c.isWhitespace = false := by
  have hh := List.head?_dropWhile_not Char.isWhitespace l
  rw [h] at hh
  exact hh

lemma getLast?_dropWhile_of_ne_nil {α : Type} (p : α → Bool) (l : List α)
    (h : l.dropWhile p ≠ []) : (l.dropWhile p).getLast? = l.getLast? := by
  obtain ⟨t, ht⟩ := List.dropWhile_suffix (l := l) p
  conv_rhs => rw [← ht]
  rw [List.getLast?_append]
  cases hx : (l.dropWhile p).getLast? with
  | none => exact absurd (List.getLast?_eq_none_iff.mp hx) h
  | some a => simp

lemma stripped_head {l : List Char} {c : Char}
    (h : ((((l.dropWhile Char.isWhitespace).reverse.dropWhile
        Char.isWhitespace).reverse)).head? = some c) :
    c.isWhitespace = false := by
  rw [List.head?_reverse] at h
  have hne : (l.dropWhile Char.isWhitespace).reverse.dropWhile Char.isWhitespace ≠ [] := by
    intro he
    rw [he] at h
    simp at h
  rw [getLast?_dropWhile_of_ne_nil _ _ hne, List.getLast?_reverse] at h
  exact wsFalse_of_head?_dropWhile h

lemma stripped_last {l : List Char} {c : Char}
    (h : ((((l.dropWhile Char.isWhitespace).reverse.dropWhile
        Char.isWhitespace).reverse)).getLast? = some c) :
    c.isWhitespace = false := by
  rw [List.getLast?_reverse] at h
  exact wsFalse_of_head?_dropWhile h

lemma noEdgeWhitespace_pyStrip (s : String) : noEdgeWhitespace (pyStrip s) = true := by
  unfold noEdgeWhitespace pyStrip
  rw [Bool.and_eq_true]
  constructor
  · split
    · rename_i c hc
      simp [stripped_head hc]
    · rfl
  · split
    · rename_i c hc
      simp [stripped_last hc]
    · rfl

/-- Inversion of a successful `ChatMessage` construction. -/
lemma mkChatMessage_ok {role content : String} {md : List (String × String)}
    {ts freshId : String} {m : MsgDict}
    (h : mkChatMessage role content md ts freshId = .ok m) :
    (role = "user" ∨ role = "assistant") ∧ pyStrip content ≠ "" ∧
      content.length ≤ 10000 ∧
      m = ⟨role, pyStrip content, ts, dictSet md "message_id" freshId⟩ := by
  unfold mkChatMessage at h
  split_ifs at h with h1 h2 h3
  · push_neg at h1
    injection h with h
    exact ⟨not_not.mp (by push_neg; exact h1), fun he => h2 (Or.inr he), by omega, h.symm⟩

/-- `dictGet` after `dictSet` at the same key. -/
lemma dictGet_dictSet_same (m : List (String × String)) (k v : String) :
    dictGet (dictSet m k v) k = some v := by
  induction m with
  | nil => simp [dictSet, dictGet, List.find?]
  | cons p rest ih =>
    obtain ⟨k', v'⟩ := p
    by_cases h : k' = k
    · subst h
      simp [dictSet, dictGet, List.find?]
    · simp only [dictSet, if_neg h, dictGet, List.find?]
      simp only [decide_eq_true_eq, h, if_false]
      exact ih

/-- `dictGet` after `dictSet` at a different key. -/
lemma dictGet_dictSet_other (m : List (String × String)) {k k' : String} (v : String)
    (h : k' ≠ k) : dictGet (dictSet m k v) k' = dictGet m k' := by
  induction m with
  | nil =>
    simp [dictSet, dictGet, List.find?, Ne.symm h]
  | cons p rest ih =>
    obtain ⟨ka, va⟩ := p
    by_cases hk : ka = k
    · subst hk
      simp only [dictSet, if_pos rfl, dictGet, List.find?]
      simp [Ne.symm h]
    · simp only [dictSet, if_neg hk, dictGet, List.find?] at ih ⊢
      by_cases hk' : ka = k'
      · simp [hk']
      · simp only [decide_eq_true_eq, hk', if_false]
        exact ih

/-- C9: construction always overwrites `metadata['message_id']` with the fresh
identifier — a caller-supplied value at that key is never preserved — while
every other caller-supplied key passes through unchanged. -/
theorem message_id_overwritten (role content : String) (md : List (String × String))
    (ts freshId : String) (m : MsgDict)
    (h : mkChatMessage role content md ts freshId = .ok m) :
    dictGet m.metadata "message_id" = some freshId ∧
      ∀ k, k ≠ "message_id" → dictGet m.metadata k = dictGet md k := by
  obtain ⟨-, -, -, rfl⟩ := mkChatMessage_ok h
  exact ⟨dictGet_dictSet_same md _ freshId,
    fun k hk => dictGet_dictSet_other md freshId hk⟩

theorem message_id_overwritten_witness :
    dictGet (dictSet [("message_id", "OLD"), ("x", "1")] "message_id" "fresh")
        "message_id" = some "fresh" ∧
      ∀ k, k ≠ "message_id" →
        dictGet (dictSet [("message_id", "OLD"), ("x", "1")] "message_id" "fresh") k =
          dictGet [("message_id", "OLD"), ("x", "1")] k := by
  have h := message_id_overwritten "user" "hi" [("message_id", "OLD"), ("x", "1")]
    "t0" "fresh" ⟨"user", "hi", "t0", dictSet [("message_id", "OLD"), ("x", "1")]
      "message_id" "fresh"⟩ rfl
  exact h

lemma cleanup_subset (l : List MsgDict) : cleanup_if_needed l ⊆ l := by
  unfold cleanup_if_needed
  split
  · exact fun _ h => h
  · exact List.drop_subset _ _

lemma addCallStep_wf {P : MsgDict → Prop}
    (hP : ∀ role content md ts id m, mkChatMessage role content md ts id = .ok m → P m)
    (h : List MsgDict) (c : AddCall) (hh : ∀ r ∈ h, P r) :
    ∀ r ∈ addCallStep h c, P r := by
  unfold addCallStep add_message
  cases hmk : mkChatMessage c.role c.content c.metadata c.timestamp c.freshId with
  | error e => exact hh
  | ok m =>
    intro r hr
    have hr' := cleanup_subset _ hr
    rcases List.mem_append.mp hr' with hmem | hmem
    · exact hh r hmem
    · rw [List.mem_singleton.mp hmem]
      exact hP _ _ _ _ _ _ hmk

/-- C10: every successfully constructed message stores trimmed, non-empty
content, and therefore so does every record of a history produced from a
well-formed (e.g. empty) starting history by `add_message` calls. -/
theorem stored_content_trimmed :
    (∀ role content md ts id m, mkChatMessage role content md ts id = .ok m →
      m.content ≠ "" ∧ noEdgeWhitespace m.content = true) ∧
    (∀ (h : List MsgDict) (calls : List AddCall),
      (∀ r ∈ h, r.content ≠ "" ∧ noEdgeWhitespace r.content = true) →
      ∀ h' ∈ runCalls h calls, ∀ r ∈ h',
        r.content ≠ "" ∧ noEdgeWhitespace r.content = true) := by
  have hcons : ∀ role content md ts id (m : MsgDict),
      mkChatMessage role content md ts id = .ok m →
      m.content ≠ "" ∧ noEdgeWhitespace m.content = true := by
    intro role content md ts id m h
    obtain ⟨-, hne, -, rfl⟩ := mkChatMessage_ok h
    exact ⟨hne, noEdgeWhitespace_pyStrip content⟩
  refine ⟨hcons, ?_⟩
  intro h calls
  induction calls generalizing h with
  | nil => intro _ h' hh'; simp [runCalls] at hh'
  | cons c cs ih =>
    intro hwf h' hh'
    simp only [runCalls, List.mem_cons] at hh'
    have hstep := addCallStep_wf hcons h c hwf
    rcases hh' with rfl | hh'
    · exact hstep
    · exact ih _ hstep _ hh'

theorem stored_content_trimmed_witness :
    ("hi" : String) ≠ "" ∧ noEdgeWhitespace "hi" = true :=
  stored_content_trimmed.1 "user" " hi " [] "t0" "id0"
    ⟨"user", "hi", "t0", [("message_id", "id0")]⟩ rfl

/-- The content used in the C4 counterexample: one leading space followed by
10000 letters, so the raw length is 10001 but the trimmed length is 10000. -/
def c4content : String := ⟨' ' :: List.replicate 10000 'a'⟩

lemma dropWhile_ws_replicate :
    (List.replicate 10000 'a').dropWhile Char.isWhitespace = List.replicate 10000 'a' := by
  rw [List.replicate_succ, List.dropWhile_cons_of_neg (by decide), ← List.replicate_succ]

lemma pyStrip_c4content : pyStrip c4content = ⟨List.replicate 10000 'a'⟩ := by
  show String.mk ((((' ' :: List.replicate 10000 'a').dropWhile
      Char.isWhitespace).reverse.dropWhile Char.isWhitespace).reverse) = _
  rw [List.dropWhile_cons_of_pos (by decide), dropWhile_ws_replicate,
    List.reverse_replicate, dropWhile_ws_replicate, List.reverse_replicate]

/-- C4 counterexample: the length check runs on the RAW content, not the
trimmed content.  For content `" " ++ "a" * 10000` the trimmed length is
10000 (within the claimed valid range 1–10000) and the role is valid, yet
construction fails with `ContentTooLong`. -/
theorem length_check_untrimmed_cex :
    (pyStrip c4content).length = 10000 ∧
      mkChatMessage "user" c4content [] "t0" "id0" = .error .ContentTooLong := by
  have hlen : c4content.length = 10001 := by
    show (' ' :: List.replicate 10000 'a').length = 10001
    rw [List.length_cons, List.length_replicate]
  constructor
  · rw [pyStrip_c4content]
    show (List.replicate 10000 'a').length = 10000
    rw [List.length_replicate]
  · have hne : ¬(c4content = "" ∨ pyStrip c4content = "") := by
      intro h
      rcases h with h | h
      · have := congrArg String.length h
        rw [hlen] at this
        exact absurd this (by decide)
      · rw [pyStrip_c4content] at h
        have := congrArg String.length h
        rw [show (String.mk (List.replicate 10000 'a')).length = 10000 from
          List.length_replicate .. ] at this
        exact absurd this (by decide)
    unfold mkChatMessage
    rw [if_neg (not_not_intro (Or.inl rfl)), if_neg hne, if_pos (by rw [hlen]; omega)]

/-- C4 (amended): validation checks run in source order on the RAW content
length.  `InvalidRole` iff the role is neither `"user"` nor `"assistant"`;
otherwise `EmptyContent` iff the raw or trimmed content is empty; otherwise
`ContentTooLong` iff the raw (untrimmed) length exceeds 10000; construction
succeeds iff the role is valid, the trimmed content is non-empty and the raw
length is at most 10000. -/
theorem message_validation (role content : String) (md : List (String × String))
    (ts freshId : String) :
    (mkChatMessage role content md ts freshId = .error .InvalidRole ↔
      ¬(role = "user" ∨ role = "assistant")) ∧
    (mkChatMessage role content md ts freshId = .error .EmptyContent ↔
      (role = "user" ∨ role = "assistant") ∧ pyStrip content = "") ∧
    (mkChatMessage role content md ts freshId = .error .ContentTooLong ↔
      (role = "user" ∨ role = "assistant") ∧ pyStrip content ≠ "" ∧
        10000 < content.length) ∧
    ((∃ m, mkChatMessage role content md ts freshId = .ok m) ↔
      (role = "user" ∨ role = "assistant") ∧ pyStrip content ≠ "" ∧
        content.length ≤ 10000) := by
  have hnil : content = "" → pyStrip content = "" := by
    intro h
    rw [h]
    rfl
  by_cases h1 : role = "user" ∨ role = "assistant"
  · by_cases h2 : content = "" ∨ pyStrip content = ""
    · have hs : pyStrip content = "" := by
        rcases h2 with h | h
        · exact hnil h
        · exact h
      have he : mkChatMessage role content md ts freshId = .error .EmptyContent := by
        unfold mkChatMessage
        rw [if_neg (not_not_intro h1), if_pos h2]
      rw [he]
      exact ⟨by simp [h1], by simp [h1, hs], by simp [hs], by simp [hs]⟩
    · have hs : pyStrip content ≠ "" := fun he' => h2 (Or.inr he')
      by_cases h3 : 10000 < content.length
      · have he : mkChatMessage role content md ts freshId = .error .ContentTooLong := by
          unfold mkChatMessage
          rw [if_neg (not_not_intro h1), if_neg h2, if_pos h3]
        rw [he]
        refine ⟨by simp [h1], by simp [hs], by simp [h1, hs, h3], ?_⟩
        simp only [reduceCtorEq, exists_false, false_iff, not_and]
        intro _ _
        omega
      · have he : mkChatMessage role content md ts freshId =
            .ok ⟨role, pyStrip content, ts, dictSet md "message_id" freshId⟩ := by
          unfold mkChatMessage
          rw [if_neg (not_not_intro h1), if_neg h2, if_neg h3]
        rw [he]
        refine ⟨by simp [h1], by simp [hs], by simp [h3], ?_⟩
        simp only [Except.ok.injEq, exists_eq', true_iff]
        exact ⟨h1, hs, by omega⟩
  · have he : mkChatMessage role content md ts freshId = .error .InvalidRole := by
      unfold mkChatMessage
      rw [if_pos h1]
    rw [he]
    exact ⟨by simp [h1], by simp [h1], by simp [h1], by simp [h1]⟩

/-! ### Storage handler (claim C5) -/

/-- The tri-state storage health status of `StorageHandler`. -/
inductive StorageStatus
  | active
  | degraded
  | unavailable
  deriving Repr, DecidableEq

/-- The persisted snapshot: the value stored under
`st.session_state.persisted_chat_data`. -/
def Snapshot := List MsgDict

/-- The state `StorageHandler` operates on: the persisted snapshot (if any)
and the sticky `storage_status`. -/
structure StorageState where
  persisted : Option Snapshot
  status : StorageStatus

/-- The observable outcome of one `save_to_storage` call: the new state, the
boolean return value, and whether the size warning was emitted. -/
structure SaveResult where
  state : StorageState
  ok : Bool
  warned : Bool

/-- `StorageHandler.save_to_storage(data)`.  `serLen` is the length of
`json.dumps(data)` in characters (equal to its UTF-8 byte length, since
`json.dumps` escapes to ASCII by default); `none` models a `TypeError` /
`ValueError` raised by serialization.  `data_size_kb > 50` is `51200 < len`
and `data_size_kb > 500` is `512000 < len` (the float division by 1024 is
exact at these magnitudes). -/
def save_to_storage (s : StorageState) (data : Snapshot) (serLen : Option Nat) :
    SaveResult :=
  match serLen with
  | none => ⟨{ s with status := .degraded }, false, false⟩
  | some len =>
    let warned := decide (51200 < len)
    if 512000 < len then
      ⟨{ s with status := .unavailable }, false, warned⟩
    else
      ⟨{ persisted := some data, status := .active }, true, warned⟩

/-- C5: `save_to_storage` rejects snapshots whose serialized size exceeds
500KB (returns false, sets status `unavailable`, does not persist), persists
snapshots of at most 500KB (returns true, sets status `active`), and absorbs
serialization failures (returns false, sets status `degraded`, no persist,
no raise). -/
theorem save_to_storage_spec (s : StorageState) (data : Snapshot) (len : Nat) :
    (512000 < len →
      save_to_storage s data (some len) = ⟨⟨s.persisted, .unavailable⟩, false, true⟩) ∧
    (len ≤ 512000 →
      save_to_storage s data (some len) =
        ⟨⟨some data, .active⟩, true, decide (51200 < len)⟩) ∧
    save_to_storage s data none = ⟨⟨s.persisted, .degraded⟩, false, false⟩ := by
  refine ⟨?_, ?_, rfl⟩
  · intro h
    have hw : decide (51200 < len) = true := by
      rw [decide_eq_true_eq]
      omega
    simp only [save_to_storage, if_pos h, hw]
  · intro h
    simp only [save_to_storage, if_neg (show ¬(512000 < len) by omega)]

theorem save_to_storage_spec_witness :
    save_to_storage ⟨none, .active⟩ [] (some 614400) =
        ⟨⟨none, .unavailable⟩, false, true⟩ ∧
      save_to_storage ⟨none, .active⟩ [] (some 10240) =
        ⟨⟨some [], .active⟩, true, false⟩ ∧
      save_to_storage ⟨none, .unavailable⟩ [] none =
        ⟨⟨none, .degraded⟩, false, false⟩ :=
  ⟨(save_to_storage_spec ⟨none, .active⟩ [] 614400).1 (by omega),
    (save_to_storage_spec ⟨none, .active⟩ [] 10240).2.1 (by omega),
    (save_to_storage_spec ⟨none, .unavailable⟩ [] 0).2.2⟩

/-! ### Session manager (claim C8) -/

/-- The `document_metadata` record set by `handle_new_document_upload`. -/
structure DocumentMetadata where
  name : String
  processed_at : String
  size_bytes : Option Nat
  deriving Repr, DecidableEq

/-- The session-state fields `SessionManager` coordinates.
`document_metadata = none` models the initial empty dict `{}`. -/
structure SessionState where
  session_id : String
  storage : StorageState
  chat_history : List MsgDict
  document_metadata : Option DocumentMetadata
  vector_store_ready : Bool

/-- `StorageHandler.clear_storage`: delete the persisted snapshot; the status
is not touched. -/
def clear_storage (s : StorageState) : StorageState :=
  { s with persisted := none }

/-- `ChatHistoryManager.clear_history`: empty the history and clear the
persisted snapshot. -/
def clear_history (st : SessionState) : SessionState :=
  { st with chat_history := [], storage := clear_storage st.storage }

/-- `ChatHistoryManager.get_message_count` as seen through the session. -/
def get_message_count (st : SessionState) : Nat :=
  st.chat_history.length

/-- `SessionManager.handle_new_document_upload(document_name, document_size)`:
clear the history, set `document_metadata` (with `size_bytes` only when a
size was supplied), and reset `vector_store_ready`.  `now` models
`datetime.utcnow().isoformat() + 'Z'`. -/
def handle_new_document_upload (st : SessionState) (document_name : String)
    (document_size : Option Nat) (now : String) : SessionState :=
  let st' := clear_history st
  { st' with
    document_metadata := some ⟨document_name, now, document_size⟩
    vector_store_ready := false }

/-- C8: immediately after `handle_new_document_upload(name, size)`, the
message count is 0, `vector_store_ready` is false, and `document_metadata`
records the given name with `size_bytes` present exactly when a size was
supplied. -/
theorem document_upload_resets (st : SessionState) (name : String)
    (size : Option Nat) (now : String) :
    get_message_count (handle_new_document_upload st name size now) = 0 ∧
    (handle_new_document_upload st name size now).vector_store_ready = false ∧
    (handle_new_document_upload st name size now).document_metadata =
      some ⟨name, now, size⟩ := by
  exact ⟨rfl, rfl, rfl⟩

/-! ### Conversation context (claim C6) -/

/-- Junk value for the (never exercised) out-of-range branches of list
indexing; the Python loop only indexes positions that exist. -/
def defaultMsg : MsgDict := ⟨"", "", "", []⟩

/-- One entry of `recent_exchanges`. -/
structure Exchange where
  user : String
  assistant : String
  timestamp : String
  deriving Repr, DecidableEq

/-- The backward while-loop of `get_conversation_context`: scan from index
`i` down while `i >= 1 and pairs_collected < last_n`; an adjacent
(user, assistant) pair is prepended (`insert(0, ...)`) and the scan jumps
two positions; otherwise it moves one position. -/
def collectLoop (messages : List MsgDict) (lastN : Nat) :
    Nat → Nat → List Exchange → List Exchange
  | i, pairsCollected, acc =>
    if h : 1 ≤ i ∧ pairsCollected < lastN then
      let mi := messages.getD i defaultMsg
      let mu := messages.getD (i - 1) defaultMsg
      if mi.role = "assistant" ∧ mu.role = "user" then
        collectLoop messages lastN (i - 2) (pairsCollected + 1)
          (⟨mu.content, mi.content, mi.timestamp⟩ :: acc)
      else
        collectLoop messages lastN (i - 1) pairsCollected acc
    else acc
termination_by i _ _ => i
decreasing_by
  all_goals omega

/-- The first-five-words "topic" of an exchange. -/
def topicOf (e : Exchange) : String :=
  " ".intercalate ((pySplit e.user).take 5)

/-- `topics.add(...)`: set insertion, modelled in first-insertion order. -/
def insertTopic (ts : List String) (t : String) : List String :=
  if t ∈ ts then ts else ts ++ [t]

/-- The deduplicated topic set collected over the exchanges. -/
def topicsOf (exs : List Exchange) : List String :=
  exs.foldl (fun ts e => insertTopic ts (topicOf e)) []

/-- The return value of `get_conversation_context` (the `document_context`
sub-dict is flattened into `document_name` and `main_topics`). -/
structure ConversationContext where
  recent_exchanges : List Exchange
  conversation_summary : String
  document_name : String
  main_topics : List String
  total_messages : Nat

/-- `ChatHistoryManager.get_conversation_context(last_n)`.  `documentName`
models `st.session_state.get('document_metadata', {}).get('name', 'Unknown')`. -/
def get_conversation_context (messages : List MsgDict) (documentName : Option String)
    (lastN : Nat) : ConversationContext :=
  let recent := collectLoop messages lastN (messages.length - 1) 0 []
  let topics := topicsOf recent
  let summary :=
    if topics = [] then ""
    else "Discussion about: " ++ ", ".intercalate (topics.take 3)
  { recent_exchanges := recent
    conversation_summary := ⟨summary.data.take 500⟩
    document_name := documentName.getD "Unknown"
    main_topics := topics.take 5
    total_messages := messages.length }

/-- `ExchangesMatch messages js exs`: the exchanges `exs` are exactly the
adjacent (user, assistant) pairs of `messages` at the positions `js` (each
`j` is the index of the assistant message, `j - 1` of the user message). -/
def ExchangesMatch (messages : List MsgDict) : List Nat → List Exchange → Prop
  | [], [] => True
  | j :: js, e :: es =>
    1 ≤ j ∧ j < messages.length ∧
    (messages.getD (j - 1) defaultMsg).role = "user" ∧
    (messages.getD j defaultMsg).role = "assistant" ∧
    e = ⟨(messages.getD (j - 1) defaultMsg).content,
         (messages.getD j defaultMsg).content,
         (messages.getD j defaultMsg).timestamp⟩ ∧
    ExchangesMatch messages js es
  | _, _ => False

lemma collectLoop_spec (messages : List MsgDict) (lastN : Nat)
    (i pc : Nat) (acc : List Exchange) (js : List Nat)
    (hi : i < messages.length ∨ i = 0)
    (hsort : List.Pairwise (· < ·) js)
    (hlt : ∀ j ∈ js, i < j)
    (hmatch : ExchangesMatch messages js acc) :
    ∃ js', List.Pairwise (· < ·) js' ∧
      ExchangesMatch messages js' (collectLoop messages lastN i pc acc) ∧
      (collectLoop messages lastN i pc acc).length ≤ acc.length + (lastN - pc) := by
  induction i using Nat.strong_induction_on generalizing pc acc js with
  | _ i ih =>
    rw [collectLoop]
    by_cases h : 1 ≤ i ∧ pc < lastN
    · rw [dif_pos h]
      have hilen : i < messages.length := by
        rcases hi with hi | hi
        · exact hi
        · omega
      by_cases hpair : (messages.getD i defaultMsg).role = "assistant" ∧
          (messages.getD (i - 1) defaultMsg).role = "user"
      · rw [if_pos hpair]
        have hrec := ih (i - 2) (by omega) (pc + 1)
          (⟨(messages.getD (i - 1) defaultMsg).content,
            (messages.getD i defaultMsg).content,
            (messages.getD i defaultMsg).timestamp⟩ :: acc)
          (i :: js)
          (by left; omega)
          (List.pairwise_cons.mpr ⟨hlt, hsort⟩)
          (by
            intro j hj
            rcases List.mem_cons.mp hj with rfl | hj
            · omega
            · have := hlt j hj
              omega)
          (by
            refine ⟨h.1, hilen, hpair.2, hpair.1, rfl, hmatch⟩)
        obtain ⟨js', hs', hm', hl'⟩ := hrec
        refine ⟨js', hs', hm', ?_⟩
        calc (collectLoop messages lastN (i - 2) (pc + 1) _).length
            ≤ _ := hl'
          _ ≤ acc.length + (lastN - pc) := by
              simp only [List.length_cons]
              omega
      · rw [if_neg hpair]
        exact ih (i - 1) (by omega) pc acc js
          (by left; omega)
          hsort
          (by
            intro j hj
            have := hlt j hj
            omega)
          hmatch
    · rw [dif_neg h]
      exact ⟨js, hsort, hmatch, by omega⟩

/-- C6: `get_conversation_context(lastN)` returns at most `lastN` exchanges;
there is a strictly increasing list of history positions at which each
returned exchange is a genuine adjacent (user, assistant) pair (so the
exchanges are in chronological order); and the conversation summary is at
most 500 characters long. -/
theorem conversation_context_spec (messages : List MsgDict)
    (documentName : Option String) (lastN : Nat) :
    (get_conversation_context messages documentName lastN).recent_exchanges.length
        ≤ lastN ∧
    (∃ js, List.Pairwise (· < ·) js ∧
      ExchangesMatch messages js
        (get_conversation_context messages documentName lastN).recent_exchanges) ∧
    (get_conversation_context messages documentName lastN).conversation_summary.length
        ≤ 500 := by
  have hinit : messages.length - 1 < messages.length ∨ messages.length - 1 = 0 := by
    omega
  have hspec := collectLoop_spec messages lastN (messages.length - 1) 0 [] []
    hinit List.Pairwise.nil (by intro j hj; simp at hj) trivial
  obtain ⟨js, hs, hm, hl⟩ := hspec
  refine ⟨?_, ⟨js, hs, hm⟩, ?_⟩
  · simpa using hl
  · show ((if topicsOf (collectLoop messages lastN (messages.length - 1) 0 []) = []
        then ("" : String)
        else "Discussion about: " ++
          ", ".intercalate ((topicsOf
            (collectLoop messages lastN (messages.length - 1) 0 [])).take 3)).data.take
          500).length ≤ 500
    exact List.length_take_le ..

/-! ### `get_chat_history` and the shallow copy (claim C7)

`get_chat_history` runs `st.session_state.chat_history.copy()`: a SHALLOW
copy.  To express aliasing we model a small object heap: list objects hold
the addresses of message-record objects, and mutation is an in-place update
at an address. -/

/-- A Python object heap: list objects (by address) and message-record
objects (by address). -/
structure PyMem where
  lists : Nat → List Nat
  recs : Nat → MsgDict

/-- The state `get_chat_history` operates on: the heap, the address of the
internal `chat_history` list object, and the allocation counter (every live
address is below `nextAddr`). -/
structure ChatState where
  mem : PyMem
  historyAddr : Nat
  nextAddr : Nat

/-- `get_chat_history()`: `.copy()` allocates a fresh list object with the
same element addresses and returns its address. -/
def get_chat_history (s : ChatState) : ChatState × Nat :=
  let a := s.nextAddr
  ({ s with
      mem := { s.mem with
        lists := fun n =>
          if n = a then s.mem.lists s.historyAddr else s.mem.lists n }
      nextAddr := a + 1 }, a)

/-- In-place mutation of the list object at address `a` (append, remove,
element assignment on the returned list). -/
def setList (s : ChatState) (a : Nat) (l : List Nat) : ChatState :=
  { s with mem := { s.mem with
      lists := fun n => if n = a then l else s.mem.lists n } }

/-- In-place mutation of the message record at address `a`
(e.g. `record['content'] = ...` on a dict reached through the returned
list). -/
def setRec (s : ChatState) (a : Nat) (r : MsgDict) : ChatState :=
  { s with mem := { s.mem with
      recs := fun n => if n = a then r else s.mem.recs n } }

/-- The message content of the internal history, as a subsequent
`get_chat_history` call observes it. -/
def historyView (s : ChatState) : List MsgDict :=
  (s.mem.lists s.historyAddr).map s.mem.recs

/-- A concrete state for the C7 counterexample: the internal history is the
list object at address 1, holding one record at address 0. -/
def c7state : ChatState :=
  { mem := { lists := fun _ => [0], recs := fun _ => ⟨"user", "hello", "t0", []⟩ }
    historyAddr := 1
    nextAddr := 2 }

/-- C7 counterexample: mutating a message record contained in the structure
returned by `get_chat_history` DOES change what a subsequent call returns —
the copy is shallow, so the claim is false. -/
theorem shallow_copy_cex :
    historyView
        (setRec (get_chat_history c7state).1
          (((get_chat_history c7state).1.mem.lists (get_chat_history c7state).2).headD 0)
          ⟨"user", "changed", "t0", []⟩)
      ≠ historyView c7state := by
  decide

/-- C7 (amended): `get_chat_history` returns a shallow copy.  Mutating the
returned list object itself leaves the internal history (and hence later
calls' results) unchanged, but mutating a message record the returned list
contains is shared with the internal history and visible in later calls. -/
theorem get_chat_history_shallow_copy (s : ChatState)
    (hwf : s.historyAddr < s.nextAddr) (l : List Nat) (ra : Nat) (r : MsgDict)
    (_hra : ra ∈ (get_chat_history s).1.mem.lists (get_chat_history s).2) :
    historyView (setList (get_chat_history s).1 (get_chat_history s).2 l) =
      historyView s ∧
    historyView (setRec (get_chat_history s).1 ra r) =
      (s.mem.lists s.historyAddr).map
        (fun n => if n = ra then r else s.mem.recs n) := by
  have hne : s.historyAddr ≠ s.nextAddr := Nat.ne_of_lt hwf
  constructor
  · simp only [historyView, setList, get_chat_history]
    rw [if_neg hne, if_neg hne]
  · simp only [historyView, setRec, get_chat_history]
    rw [if_neg hne]

theorem get_chat_history_shallow_copy_witness :
    historyView (setList (get_chat_history c7state).1 (get_chat_history c7state).2 []) =
      historyView c7state ∧
    historyView (setRec (get_chat_history c7state).1 0 ⟨"user", "changed", "t0", []⟩) =
      (c7state.mem.lists c7state.historyAddr).map
        (fun n => if n = 0 then ⟨"user", "changed", "t0", []⟩
          else c7state.mem.recs n) :=
  get_chat_history_shallow_copy c7state (by decide) [] 0
    ⟨"user", "changed", "t0", []⟩ (by decide)

end ChatBot
